import Mathlib

/-!
Verification of the email-dictation normalizer in `src/api/parse-email.js`
(the `formatEmailText` / `validateEmail` pair).  Strings are embedded as
`List Char`; every JS regex operation is embedded as an explicit recursive
function on `List Char` with the same extensional behaviour, noted at each
definition.  The confidence score is embedded as a rational number (the JS
literals 0.0, 0.4, 0.6, 0.8, 0.99 become the exact rationals they denote).
-/

namespace EmailParser

/-- Characters treated as whitespace by the embedding of JS `trim()` and of
the tokenizing split on `/\s+/` (ASCII whitespace; the dictation domain). -/
def jsWhitespace (c : Char) : Bool :=
  c = ' ' ∨ c = '\t' ∨ c = '\n' ∨ c = '\r' ∨ c = '\x0b' ∨ c = '\x0c'

/-- Embedding of JS `String.prototype.trim()`: drop leading and trailing
whitespace. -/
def jsTrim (s : List Char) : List Char :=
  ((s.dropWhile jsWhitespace).reverse.dropWhile jsWhitespace).reverse

/-- Embedding of JS `toLowerCase()` on the relevant alphabet: ASCII
upper-case letters map down; Latin-1 upper-case letters (À–Þ, except ×)
map down by the Unicode case offset 0x20; everything else is unchanged. -/
def jsToLower (c : Char) : Char :=
  if 0x41 ≤ c.toNat ∧ c.toNat ≤ 0x5a then Char.ofNat (c.toNat + 0x20)
  else if 0xc0 ≤ c.toNat ∧ c.toNat ≤ 0xde ∧ c.toNat ≠ 0xd7 then Char.ofNat (c.toNat + 0x20)
  else c

/-- Unicode NFD decomposition, restricted to the precomposed Latin-1
lower-case letters that arise from Spanish/ASR dictation (the source calls
the platform's `normalize("NFD")`; this table is its restriction to the
alphabet the normalizer is used on: base letter followed by the combining
mark U+0300..U+0308 / U+0303 / U+030A / U+0327). Other characters decompose
to themselves. -/
def nfdChar (c : Char) : List Char :=
  if c = 'á' then ['a', '́'] else if c = 'é' then ['e', '́']
  else if c = 'í' then ['i', '́'] else if c = 'ó' then ['o', '́']
  else if c = 'ú' then ['u', '́'] else if c = 'à' then ['a', '̀']
  else if c = 'è' then ['e', '̀'] else if c = 'ì' then ['i', '̀']
  else if c = 'ò' then ['o', '̀'] else if c = 'ù' then ['u', '̀']
  else if c = 'ä' then ['a', '̈'] else if c = 'ë' then ['e', '̈']
  else if c = 'ï' then ['i', '̈'] else if c = 'ö' then ['o', '̈']
  else if c = 'ü' then ['u', '̈'] else if c = 'â' then ['a', '̂']
  else if c = 'ê' then ['e', '̂'] else if c = 'î' then ['i', '̂']
  else if c = 'ô' then ['o', '̂'] else if c = 'û' then ['u', '̂']
  else if c = 'ã' then ['a', '̃'] else if c = 'õ' then ['o', '̃']
  else if c = 'ñ' then ['n', '̃'] else if c = 'å' then ['a', '̊']
  else if c = 'ç' then ['c', '̧'] else [c]

/-- Embedding of `removeDiacritics` from the source:
`s.normalize("NFD").replace(/[̀-ͯ]/g, "")` — NFD-decompose, then
delete every combining mark in U+0300..U+036F. -/
def removeDiacritics (s : List Char) : List Char :=
  (s.flatMap nfdChar).filter (fun c => !(0x300 ≤ c.toNat ∧ c.toNat ≤ 0x36f))

/-- The canonicalization step of `formatEmailText`:
`removeDiacritics(input.trim().toLowerCase())`. -/
def canonicalize (s : List Char) : List Char :=
  removeDiacritics (jsTrim (s.map jsToLower))

/-- Worker for `tokenize`: `acc` is the reversed current run of
non-whitespace characters. -/
def tokenizeAux : List Char → List Char → List (List Char)
  | [], acc => if acc = [] then [] else [acc.reverse]
  | c :: cs, acc =>
    if jsWhitespace c then
      if acc = [] then tokenizeAux cs [] else acc.reverse :: tokenizeAux cs []
    else tokenizeAux cs (c :: acc)

/-- Embedding of `s.split(/\s+/).filter(Boolean)`: the maximal runs of
non-whitespace characters, in order, empties dropped. -/
def tokenize (s : List Char) : List (List Char) := tokenizeAux s []

/-- The `IGNORE` set from the source (filler words that emit nothing). -/
def IGNORE : List (List Char) :=
  ["espacio".data, "espacios".data, "todo".data, "junto".data, "todojunto".data,
   "sin".data, "y".data, "con".data, "la".data, "el".data, "los".data, "las".data,
   "por".data, "favor".data, "porfavor".data]

/-- The `MAP_SINGLE` lookup of the source.  The JS code reads
`MAP_SINGLE[t]` on an object literal, which consults the prototype chain:
besides the literal's own keys, the two all-lower-case property names of
`Object.prototype` — `constructor` and `__proto__`, the only inherited
names that can survive the lowercasing pass — give truthy values, and
`out += sym` then appends their stringification (V8/Node, the source's
platform): the `Object` constructor prints as
`function Object() \x7b [native code] \x7d`, and `__proto__` reads back
`Object.prototype`, which prints as `[object Object]`.  Every other token
reads `undefined` and gives `none`. -/
def MAP_SINGLE (t : List Char) : Option (List Char) :=
  if t = "@".data ∨ t = "arroba".data ∨ t = "at".data then some "@".data
  else if t = "punto".data ∨ t = "dot".data ∨ t = "puntos".data then some ".".data
  else if t = "guion".data ∨ t = "guionmedio".data ∨ t = "guion-medio".data
          ∨ t = "dash".data ∨ t = "hyphen".data then some "-".data
  else if t = "guionbajo".data ∨ t = "underscore".data then some "_".data
  else if t = "mas".data ∨ t = "plus".data then some "+".data
  else if t = "constructor".data then
    some "function Object() \x7b [native code] \x7d".data
  else if t = "__proto__".data then some "[object Object]".data
  else none

/-- The character class `[a-z0-9._+-]` of the source's regexes (the
characters kept by the fallback strip and accepted in the local part). -/
def isEmailChar (c : Char) : Bool :=
  ('a' ≤ c ∧ c ≤ 'z') ∨ ('0' ≤ c ∧ c ≤ '9')
  ∨ c = '.' ∨ c = '_' ∨ c = '+' ∨ c = '-'

/-- One non-bigram, non-ignored rewriter step on token `t` with at-flag
`seenAt`: the characters emitted and the updated flag (source lines 40–50:
truthy `MAP_SINGLE[t]` with `sym === "@"` guarded by `seenAt` and any
other truthy value appended as a string, symbol pass-through, fallback
strip `t.replace(/[^a-z0-9._+-]/g, "")`). -/
def singleTok (t : List Char) (seenAt : Bool) : List Char × Bool :=
  match MAP_SINGLE t with
  | some sym =>
    if sym = "@".data then (if seenAt then ([], true) else (['@'], true))
    else (sym, seenAt)
  | none =>
    if t = ".".data ∨ t = "_".data ∨ t = "-".data ∨ t = "+".data then (t, seenAt)
    else (t.filter isEmailChar, seenAt)

/-- The token rewriter loop of `formatEmailText` (source lines 26–51):
ignore-set check first, then the "guion bajo / medio / alto" bigram rules
(which need a next token), then the single-token step. -/
def rewriteTokens : List (List Char) → Bool → List Char
  | [], _ => []
  | [t], seenAt =>
    if IGNORE.contains t then [] else (singleTok t seenAt).1
  | t :: next :: rest, seenAt =>
    if IGNORE.contains t then rewriteTokens (next :: rest) seenAt
    else if t = "guion".data then
      if next = "bajo".data then '_' :: rewriteTokens rest seenAt
      else if next = "medio".data ∨ next = "alto".data then
        '-' :: rewriteTokens rest seenAt
      else (singleTok t seenAt).1 ++ rewriteTokens (next :: rest) (singleTok t seenAt).2
    else (singleTok t seenAt).1 ++ rewriteTokens (next :: rest) (singleTok t seenAt).2

/-- Embedding of `out.replace(/\.+/g, ".")`: collapse every run of dots to
a single dot (keeping one dot per run). -/
def collapseDots : List Char → List Char
  | [] => []
  | [c] => [c]
  | c :: c2 :: cs =>
    if c = '.' ∧ c2 = '.' then collapseDots (c2 :: cs)
    else c :: collapseDots (c2 :: cs)

/-- Embedding of `out.replace(/\.@/g, "@")`: left-to-right, every
occurrence of the two characters `.@` becomes `@`. -/
def replaceDotAt : List Char → List Char
  | '.' :: '@' :: cs => '@' :: replaceDotAt cs
  | c :: cs => c :: replaceDotAt cs
  | [] => []

/-- Embedding of `out.replace(/@\.?/g, "@")`: left-to-right, every `@`
swallows one directly following dot, if any. -/
def replaceAtDot : List Char → List Char
  | '@' :: '.' :: cs => '@' :: replaceAtDot cs
  | c :: cs => c :: replaceAtDot cs
  | [] => []

/-- Embedding of `.replace(/^\.+|\.+$/g, "")`: strip the leading and the
trailing run of dots. -/
def stripDots (s : List Char) : List Char :=
  ((s.dropWhile (fun c => c = '.')).reverse.dropWhile (fun c => c = '.')).reverse

/-- Embedding of `out.split("@", 2)`: the text before the first `@` and the
text between the first and the second `@` (or to the end if there is no
second `@`).  Only used on strings that contain an `@`. -/
def jsSplit2At (s : List Char) : List Char × List Char :=
  (s.takeWhile (fun c => c ≠ '@'),
   ((s.dropWhile (fun c => c ≠ '@')).drop 1).takeWhile (fun c => c ≠ '@'))

/-- The cleanup pass of `formatEmailText` (source lines 53–63): the three
global replaces, then per-part dot stripping around the first `@` (with the
dot runs inside the domain collapsed again), or whole-string dot stripping
when no `@` is present.  `o.contains '@'` is embedded as `'@' ∈ o`. -/
def cleanup (out : List Char) : List Char :=
  let o := replaceAtDot (replaceDotAt (collapseDots out))
  if '@' ∈ o then
    let p := jsSplit2At o
    stripDots p.1 ++ '@' :: collapseDots (stripDots p.2)
  else stripDots o

/-- The character class `[a-z0-9.-]` of the domain regex, under the `i`
flag (so letters of either case). -/
def isDomainBodyChar (c : Char) : Bool :=
  ('a' ≤ c ∧ c ≤ 'z') ∨ ('A' ≤ c ∧ c ≤ 'Z') ∨ ('0' ≤ c ∧ c ≤ '9')
  ∨ c = '.' ∨ c = '-'

/-- An ASCII letter of either case (the class `[a-z]` under the `i` flag). -/
def isAsciiLetter (c : Char) : Bool :=
  ('a' ≤ c ∧ c ≤ 'z') ∨ ('A' ≤ c ∧ c ≤ 'Z')

/-- Embedding of the test `/^[a-z0-9.-]+\.[a-z]..,..$/i.test(domain)` (the
final group is two or more letters): the string matches iff it can be cut
at some dot into a non-empty body of `[a-z0-9.-]` characters and a final
label of at least two letters.  Expressed as a search over every cut
position, which is exactly the regex's match semantics. -/
def domainRegexTest (d : List Char) : Bool :=
  (List.range d.length).any (fun j =>
    decide (0 < j) && (d.take j).all isDomainBodyChar
    && (d[j]? == some '.')
    && decide (2 ≤ (d.drop (j + 1)).length) && (d.drop (j + 1)).all isAsciiLetter)

/-- Whether the string contains two consecutive dots (JS
`domain.includes("..")`). -/
def hasDoubleDot : List Char → Bool
  | '.' :: '.' :: _ => true
  | _ :: cs => hasDoubleDot cs
  | [] => false

/-- The outcome record of `validateEmail` (`local` is a Lean keyword, so
the JS fields `local` / `domain` are called `locPart` / `domPart`). -/
structure ValidationOutcome where
  isValid : Bool
  confidence : ℚ
  locPart : List Char
  domPart : List Char
deriving DecidableEq, Repr

/-- `email.slice(0, at)` where `at` is the index of the first `@`: the
text before the first `@`. -/
def beforeFirstAt (email : List Char) : List Char :=
  email.takeWhile (fun c => c ≠ '@')

/-- `email.slice(at + 1)` where `at` is the index of the first `@`: all
the text after the first `@`. -/
def afterFirstAt (email : List Char) : List Char :=
  (email.dropWhile (fun c => c ≠ '@')).drop 1

/-- The test `/^[a-z0-9._+-]+$/.test(local) && local.length > 0` of
`validateEmail`. -/
def localOk (l : List Char) : Bool :=
  l.all isEmailChar && decide (0 < l.length)

/-- The test `/^[a-z0-9.-]+\.[a-z]...$/i.test(domain) && !domain.includes("..")`
of `validateEmail`. -/
def domainOk (d : List Char) : Bool :=
  domainRegexTest d && !hasDoubleDot d

/-- Embedding of `validateEmail` (source lines 69–80): split at the first
`@` via `indexOf`/`slice` (`indexOf("@") === -1` is embedded as
`'@' ∉ email`), test the local part against `[a-z0-9._+-]+` and the domain
against the domain regex plus the no-`..` check, and assign the discrete
confidence starting from 0.6. -/
def validateEmail (email : List Char) : ValidationOutcome :=
  if '@' ∈ email then
    let locPart := beforeFirstAt email
    let domPart := afterFirstAt email
    let confidence : ℚ :=
      if localOk locPart && domainOk domPart then 0.99
      else if localOk locPart && decide (0 < domPart.length) then 0.8
      else 0.6
    ⟨localOk locPart && domainOk domPart, confidence, locPart, domPart⟩
  else ⟨false, 0.4, [], []⟩

/-- The result of `formatEmailText`.  The source returns one of two object
shapes: the guard's error object (no `input`/`local`/`domain` keys, with a
`reason`) or the full result object. -/
inductive NormalizedResult where
  | error (email : String) (isValid : Bool) (confidence : ℚ) (reason : String)
  | ok (input : String) (email : String) (isValid : Bool) (confidence : ℚ)
       (locPart : String) (domPart : String)
deriving DecidableEq, Repr

/-- The `email` field of either result shape. -/
def NormalizedResult.email : NormalizedResult → String
  | .error e _ _ _ => e
  | .ok _ e _ _ _ _ => e

/-- The `isValid` field of either result shape. -/
def NormalizedResult.isValid : NormalizedResult → Bool
  | .error _ v _ _ => v
  | .ok _ _ v _ _ _ => v

/-- The `confidence` field of either result shape. -/
def NormalizedResult.confidence : NormalizedResult → ℚ
  | .error _ _ c _ => c
  | .ok _ _ _ c _ _ => c

/-- The `local` field: present only on the full result shape (`""` stands
for the absent key on the error shape). -/
def NormalizedResult.locPart : NormalizedResult → String
  | .error _ _ _ _ => ""
  | .ok _ _ _ _ l _ => l

/-- The `domain` field: present only on the full result shape (`""` stands
for the absent key on the error shape). -/
def NormalizedResult.domPart : NormalizedResult → String
  | .error _ _ _ _ => ""
  | .ok _ _ _ _ _ d => d

/-- Embedding of `formatEmailText` (source lines 9–67).  The JS guard
`!input || typeof input !== "string"` reduces, on string inputs, to the
emptiness test; absent and non-string inputs take the same guard branch and
are represented here by the same error value.  The guard returns directly,
so the pipeline stages below it are not invoked on guarded inputs. -/
def formatEmailText (input : String) : NormalizedResult :=
  if input = "" then .error "" false 0.0 "Empty input"
  else
    let out := cleanup (rewriteTokens (tokenize (canonicalize input.data)) false)
    let v := validateEmail out
    .ok input (String.mk out) v.isValid v.confidence
       (String.mk v.locPart) (String.mk v.domPart)

/-- Characters the rewriter may emit: the email class plus `@`. -/
def isOutChar (c : Char) : Bool := isEmailChar c || c == '@'

/-- The character class `[a-z0-9-]` of the spec's domain *groups*
(case-insensitive, per the spec's "(case-insensitive)"). -/
def isDomainGroupChar (c : Char) : Bool :=
  ('a' ≤ c ∧ c ≤ 'z') ∨ ('A' ≤ c ∧ c ≤ 'Z') ∨ ('0' ≤ c ∧ c ≤ '9') ∨ c = '-'

/-- Groups joined by single dots ("groups … separated by single dots"). -/
def dotJoined : List (List Char) → List Char
  | [] => []
  | [g] => g
  | g :: g2 :: gs => g ++ '.' :: dotJoined (g2 :: gs)

/-- The domain pattern exactly as the specification words it: "one or more
groups of characters from `[a-z0-9-]` separated by single dots, ending in
a final dot and a 2+ letter top-level label" (case-insensitive).  Stated
from the spec's words for comparison against the code's `domainOk`; a
group of characters is non-empty. -/
def specDomainPattern (d : List Char) : Prop :=
  ∃ (gs : List (List Char)) (tld : List Char),
    gs ≠ [] ∧ (∀ g ∈ gs, g ≠ [] ∧ ∀ c ∈ g, isDomainGroupChar c = true) ∧
    2 ≤ tld.length ∧ (∀ c ∈ tld, isAsciiLetter c = true) ∧
    d = dotJoined gs ++ '.' :: tld

/-! ### Helper lemmas about the cleanup passes -/

theorem collapseDots_sublist (l : List Char) : List.Sublist (collapseDots l) l := by
  induction l using collapseDots.induct with
  | case1 => simp [collapseDots]
  | case2 c => simp [collapseDots]
  | case3 c c2 cs h ih =>
    rw [collapseDots]; simp only [if_pos h]
    exact ih.trans (List.sublist_cons_self _ _)
  | case4 c c2 cs h ih =>
    rw [collapseDots]; simp only [if_neg h]
    exact ih.cons₂ c

theorem replaceDotAt_sublist (l : List Char) : List.Sublist (replaceDotAt l) l := by
  induction l using replaceDotAt.induct with
  | case1 cs ih => exact (ih.cons₂ '@').trans (List.sublist_cons_self _ _)
  | case2 c cs h ih => simp only [replaceDotAt]; exact ih.cons₂ c
  | case3 => simp [replaceDotAt]

theorem replaceAtDot_sublist (l : List Char) : List.Sublist (replaceAtDot l) l := by
  induction l using replaceAtDot.induct with
  | case1 cs ih =>
    exact (ih.cons₂ '@').trans (List.cons_sublist_cons.mpr (List.sublist_cons_self _ _))
  | case2 c cs h ih => simp only [replaceAtDot]; exact ih.cons₂ c
  | case3 => simp [replaceAtDot]

theorem stripDots_sublist (l : List Char) : List.Sublist (stripDots l) l := by
  unfold stripDots
  have h1 : List.Sublist ((l.dropWhile (fun c => c = '.')).reverse.dropWhile (fun c => c = '.'))
      ((l.dropWhile (fun c => c = '.')).reverse) := List.dropWhile_sublist _
  have h2 := h1.reverse
  rw [List.reverse_reverse] at h2
  exact h2.trans (List.dropWhile_sublist _)

/-- `collapseDots` keeps the first character of its input. -/
theorem collapseDots_head (l : List Char) : (collapseDots l).head? = l.head? := by
  induction l using collapseDots.induct with
  | case1 => rfl
  | case2 c => rfl
  | case3 c c2 cs h ih =>
    rw [collapseDots]; simp only [if_pos h]
    rw [ih]; simp [h.1, h.2]
  | case4 c c2 cs h ih =>
    rw [collapseDots]; simp only [if_neg h]; rfl

theorem hasDoubleDot_cons (c : Char) (l : List Char) :
    hasDoubleDot (c :: l) =
      ((decide (c = '.') && (l.head? == some '.')) || hasDoubleDot l) := by
  match l with
  | [] => simp [hasDoubleDot]
  | d :: l2 =>
    by_cases hc : c = '.'
    · by_cases hd : d = '.'
      · subst hc; subst hd; simp [hasDoubleDot]
      · subst hc; simp [hasDoubleDot, hd]
    · simp [hasDoubleDot, hc]

/-- The collapse pass leaves no two consecutive dots. -/
theorem collapseDots_noDoubleDot (l : List Char) :
    hasDoubleDot (collapseDots l) = false := by
  induction l using collapseDots.induct with
  | case1 => rfl
  | case2 c => simp [collapseDots, hasDoubleDot]
  | case3 c c2 cs h ih => rw [collapseDots]; simp only [if_pos h]; exact ih
  | case4 c c2 cs h ih =>
    rw [collapseDots]; simp only [if_neg h]
    rw [hasDoubleDot_cons, ih, collapseDots_head]
    simp only [Bool.or_false]
    by_cases hc : c = '.'
    · have hc2 : ¬ c2 = '.' := fun hh => h ⟨hc, hh⟩
      simp [hc, hc2]
    · simp [hc]

/-- A list made only of characters other than `a` followed by `a :: B`:
`takeWhile` keeps exactly the prefix. -/
theorem takeWhile_append_eq (a : Char) (A B : List Char)
    (h : ∀ c ∈ A, c ≠ a) :
    (A ++ a :: B).takeWhile (fun c => c ≠ a) = A := by
  induction A with
  | nil => simp
  | cons x A ih =>
    have hx : x ≠ a := h x (List.mem_cons_self _ _)
    simp only [List.cons_append, List.takeWhile_cons, decide_eq_true_eq]
    rw [if_pos hx, ih (fun c hc => h c (List.mem_cons_of_mem _ hc))]

/-- Counterpart of `takeWhile_append_eq` for `dropWhile`. -/
theorem dropWhile_append_eq (a : Char) (A B : List Char)
    (h : ∀ c ∈ A, c ≠ a) :
    (A ++ a :: B).dropWhile (fun c => c ≠ a) = a :: B := by
  induction A with
  | nil => simp
  | cons x A ih =>
    have hx : x ≠ a := h x (List.mem_cons_self _ _)
    simp only [List.cons_append, List.dropWhile_cons, decide_eq_true_eq]
    rw [if_pos hx, ih (fun c hc => h c (List.mem_cons_of_mem _ hc))]

/-- Splitting a string at its first `@` and re-joining gives the string
back. -/
theorem beforeAt_append_afterAt (e : List Char) (h : '@' ∈ e) :
    beforeFirstAt e ++ '@' :: afterFirstAt e = e := by
  unfold beforeFirstAt afterFirstAt
  induction e with
  | nil => cases h
  | cons c cs ih =>
    by_cases hc : c = '@'
    · subst hc
      simp [List.takeWhile_cons, List.dropWhile_cons]
    · have h' : '@' ∈ cs := by
        rcases List.mem_cons.mp h with h1 | h1
        · exact absurd h1.symm hc
        · exact h1
      simp only [List.takeWhile_cons, List.dropWhile_cons, decide_eq_true_eq]
      rw [if_pos hc, if_pos hc, List.cons_append, ih h']

/-! ### Helper lemmas about the rewriter's output alphabet -/

/-- Away from the two inherited `Object.prototype` keys, a truthy
`MAP_SINGLE` lookup yields one of the five symbol strings. -/
theorem MAP_SINGLE_chars (t : List Char) (sym : List Char) (h : MAP_SINGLE t = some sym)
    (h1 : t ≠ "constructor".data) (h2 : t ≠ "__proto__".data) :
    sym = "@".data ∨ sym = ".".data ∨ sym = "-".data ∨ sym = "_".data ∨ sym = "+".data := by
  unfold MAP_SINGLE at h
  split_ifs at h with hc1 hc2 hc3 hc4 hc5
  · injection h with h; subst h; simp
  · injection h with h; subst h; simp
  · injection h with h; subst h; simp
  · injection h with h; subst h; simp
  · injection h with h; subst h; simp

theorem singleTok_chars (t : List Char) (sA : Bool)
    (h1 : t ≠ "constructor".data) (h2 : t ≠ "__proto__".data) :
    ∀ c ∈ (singleTok t sA).1, isOutChar c = true := by
  cases hm : MAP_SINGLE t with
  | none =>
    have he : singleTok t sA =
        if t = ".".data ∨ t = "_".data ∨ t = "-".data ∨ t = "+".data then (t, sA)
        else (t.filter isEmailChar, sA) := by
      unfold singleTok; rw [hm]
    rw [he]
    by_cases hp : t = ".".data ∨ t = "_".data ∨ t = "-".data ∨ t = "+".data
    · rw [if_pos hp]
      rcases hp with h | h | h | h <;> subst h <;>
        (intro c hc; rw [List.mem_singleton.mp hc]; decide)
    · rw [if_neg hp]
      intro c hc
      have hf := List.mem_filter.mp hc
      simp [isOutChar, hf.2]
  | some sym =>
    have he : singleTok t sA =
        if sym = "@".data then (if sA then ([], true) else (['@'], true))
        else (sym, sA) := by
      unfold singleTok; rw [hm]
    rw [he]
    rcases MAP_SINGLE_chars t sym hm h1 h2 with h | h | h | h | h <;> subst h <;>
      cases sA <;> decide

/-- The rewriter emits only email characters and `@`, provided no token is
one of the two inherited `Object.prototype` keys. -/
theorem rewriteTokens_chars (toks : List (List Char)) (sA : Bool)
    (ht : ∀ t ∈ toks, t ≠ "constructor".data ∧ t ≠ "__proto__".data) :
    ∀ c ∈ rewriteTokens toks sA, isOutChar c = true := by
  revert ht
  induction toks, sA using rewriteTokens.induct with
  | case1 => intro ht c hc; cases hc
  | case2 t sA h =>
    intro ht
    rw [rewriteTokens, if_pos h]
    intro c hc; cases hc
  | case3 t sA h =>
    intro ht
    rw [rewriteTokens, if_neg h]
    exact singleTok_chars t sA (ht t (List.mem_cons_self _ _)).1
      (ht t (List.mem_cons_self _ _)).2
  | case4 t next rest sA h ih =>
    intro ht
    rw [rewriteTokens, if_pos h]
    exact ih fun x hx => ht x (List.mem_cons_of_mem _ hx)
  | case5 rest sA h ih =>
    intro ht
    rw [rewriteTokens, if_neg h, if_pos rfl, if_pos rfl]
    intro c hc
    rcases List.mem_cons.mp hc with h1 | h1
    · subst h1; decide
    · exact ih (fun x hx => ht x (List.mem_cons_of_mem _ (List.mem_cons_of_mem _ hx))) c h1
  | case6 next rest sA hb hm h ih =>
    intro ht
    rw [rewriteTokens, if_neg h, if_pos rfl, if_neg hb, if_pos hm]
    intro c hc
    rcases List.mem_cons.mp hc with h1 | h1
    · subst h1; decide
    · exact ih (fun x hx => ht x (List.mem_cons_of_mem _ (List.mem_cons_of_mem _ hx))) c h1
  | case7 next rest sA hb hm h ih =>
    intro ht
    rw [rewriteTokens, if_neg h, if_pos rfl, if_neg hb, if_neg hm]
    intro c hc
    rcases List.mem_append.mp hc with h1 | h1
    · exact singleTok_chars _ _ (ht _ (List.mem_cons_self _ _)).1
        (ht _ (List.mem_cons_self _ _)).2 c h1
    · exact ih (fun x hx => ht x (List.mem_cons_of_mem _ hx)) c h1
  | case8 t next rest sA h hg ih =>
    intro ht
    rw [rewriteTokens, if_neg h, if_neg hg]
    intro c hc
    rcases List.mem_append.mp hc with h1 | h1
    · exact singleTok_chars _ _ (ht _ (List.mem_cons_self _ _)).1
        (ht _ (List.mem_cons_self _ _)).2 c h1
    · exact ih (fun x hx => ht x (List.mem_cons_of_mem _ hx)) c h1

/-! ### Helper lemmas about `cleanup` and `validateEmail` -/

/-- Every character of the post-replace string comes from the raw rewriter
output. -/
theorem replaces_subset (r : List Char) :
    ∀ c ∈ replaceAtDot (replaceDotAt (collapseDots r)), c ∈ r := by
  intro c hc
  exact (collapseDots_sublist r).subset
    ((replaceDotAt_sublist _).subset ((replaceAtDot_sublist _).subset hc))

/-- Members of the first component of the `split("@", 2)` embedding are
members of the split string and are not `@`. -/
theorem jsSplit2At_fst_mem (o : List Char) :
    ∀ c ∈ (jsSplit2At o).1, c ∈ o ∧ c ≠ '@' := by
  intro c hc
  refine ⟨(List.takeWhile_sublist _).subset hc, ?_⟩
  have := List.mem_takeWhile_imp hc
  simpa using this

/-- Members of the second component of the `split("@", 2)` embedding are
members of the split string and are not `@`. -/
theorem jsSplit2At_snd_mem (o : List Char) :
    ∀ c ∈ (jsSplit2At o).2, c ∈ o ∧ c ≠ '@' := by
  intro c hc
  constructor
  · exact (List.dropWhile_sublist _).subset
      ((List.drop_sublist _ _).subset ((List.takeWhile_sublist _).subset hc))
  · have := List.mem_takeWhile_imp hc
    simpa using this

/-- The email produced by `cleanup` never holds more than one `@`. -/
theorem cleanup_atCount (r : List Char) : (cleanup r).count '@' ≤ 1 := by
  unfold cleanup
  by_cases h : '@' ∈ replaceAtDot (replaceDotAt (collapseDots r))
  · rw [if_pos h]
    have hA : '@' ∉ stripDots (jsSplit2At (replaceAtDot (replaceDotAt (collapseDots r)))).1 := by
      intro hm
      exact (jsSplit2At_fst_mem _ '@' ((stripDots_sublist _).subset hm)).2 rfl
    have hB : '@' ∉ collapseDots (stripDots (jsSplit2At (replaceAtDot (replaceDotAt (collapseDots r)))).2) := by
      intro hm
      exact (jsSplit2At_snd_mem _ '@'
        ((stripDots_sublist _).subset ((collapseDots_sublist _).subset hm))).2 rfl
    rw [List.count_append, List.count_cons]
    rw [List.count_eq_zero.mpr hA, List.count_eq_zero.mpr hB]
    simp
  · rw [if_neg h]
    have h2 : '@' ∉ stripDots (replaceAtDot (replaceDotAt (collapseDots r))) :=
      fun hm => h ((stripDots_sublist _).subset hm)
    rw [List.count_eq_zero.mpr h2]
    omega

/-- `cleanup` emits only characters of its input, plus possibly `@`. -/
theorem cleanup_chars (r : List Char) (h : ∀ c ∈ r, isOutChar c = true) :
    ∀ c ∈ cleanup r, isOutChar c = true := by
  unfold cleanup
  by_cases ho : '@' ∈ replaceAtDot (replaceDotAt (collapseDots r))
  · rw [if_pos ho]
    intro c hc
    rcases List.mem_append.mp hc with h1 | h1
    · exact h c (replaces_subset r c
        ((jsSplit2At_fst_mem _ c ((stripDots_sublist _).subset h1)).1))
    · rcases List.mem_cons.mp h1 with h2 | h2
      · subst h2; decide
      · exact h c (replaces_subset r c ((jsSplit2At_snd_mem _ c
          ((stripDots_sublist _).subset ((collapseDots_sublist _).subset h2))).1))
  · rw [if_neg ho]
    intro c hc
    exact h c (replaces_subset r c ((stripDots_sublist _).subset hc))

/-- On any `cleanup` output, the validator's domain part holds no `..`. -/
theorem validateEmail_cleanup_domPart (r : List Char) :
    hasDoubleDot (validateEmail (cleanup r)).domPart = false := by
  unfold cleanup
  by_cases ho : '@' ∈ replaceAtDot (replaceDotAt (collapseDots r))
  · rw [if_pos ho]
    set A := stripDots (jsSplit2At (replaceAtDot (replaceDotAt (collapseDots r)))).1 with hA
    set B := collapseDots (stripDots (jsSplit2At (replaceAtDot (replaceDotAt (collapseDots r)))).2) with hB
    have hAfree : ∀ c ∈ A, c ≠ '@' := by
      intro c hc
      exact (jsSplit2At_fst_mem _ c ((stripDots_sublist _).subset hc)).2
    have hmem : '@' ∈ A ++ '@' :: B := by simp
    rw [validateEmail, if_pos hmem]
    show hasDoubleDot (afterFirstAt (A ++ '@' :: B)) = false
    unfold afterFirstAt
    rw [dropWhile_append_eq '@' A B hAfree]
    simpa [hB] using collapseDots_noDoubleDot _
  · rw [if_neg ho]
    have h2 : '@' ∉ stripDots (replaceAtDot (replaceDotAt (collapseDots r))) :=
      fun hm => ho ((stripDots_sublist _).subset hm)
    rw [validateEmail, if_neg h2]
    rfl

/-! ### The spec's wording of the domain pattern, and the regex bridge -/

theorem dotJoined_cons (g : List Char) (gs : List (List Char)) :
    ∃ X, dotJoined (g :: gs) = g ++ X := by
  cases gs with
  | nil => exact ⟨[], by simp [dotJoined]⟩
  | cons g2 gs => exact ⟨'.' :: dotJoined (g2 :: gs), rfl⟩

/-- The regex `^[a-z0-9.-]+\.[a-z]...$` (final label of two or more
letters) matches exactly the strings that decompose as a non-empty body
over `[a-z0-9.-]`, a dot, and an all-letter label of length at least 2. -/
theorem domainRegexTest_iff (d : List Char) :
    domainRegexTest d = true ↔
      ∃ body tld : List Char, d = body ++ '.' :: tld ∧ body ≠ [] ∧
        (∀ c ∈ body, isDomainBodyChar c = true) ∧ 2 ≤ tld.length ∧
        (∀ c ∈ tld, isAsciiLetter c = true) := by
  unfold domainRegexTest
  rw [List.any_eq_true]
  constructor
  · rintro ⟨j, hj, hcond⟩
    rw [List.mem_range] at hj
    simp only [Bool.and_eq_true, decide_eq_true_eq, beq_iff_eq, List.all_eq_true] at hcond
    obtain ⟨⟨⟨⟨h0, hbody⟩, hdot⟩, hlen⟩, htld⟩ := hcond
    have hget : d[j] = '.' := by
      rw [List.getElem?_eq_getElem hj] at hdot
      exact (Option.some.injEq _ _).mp hdot
    refine ⟨d.take j, d.drop (j + 1), ?_, ?_, hbody, hlen, htld⟩
    · conv_lhs => rw [← List.take_append_drop j d]
      rw [List.drop_eq_getElem_cons hj, hget]
    · have : (d.take j).length = j := by
        rw [List.length_take]; omega
      intro hnil
      rw [hnil] at this
      simp at this
      omega
  · rintro ⟨body, tld, rfl, hne, hbody, hlen, htld⟩
    refine ⟨body.length, ?_, ?_⟩
    · rw [List.mem_range, List.length_append, List.length_cons]
      omega
    · have h1 : (body ++ '.' :: tld).take body.length = body := List.take_left body _
      have h2 : (body ++ '.' :: tld)[body.length]? = some '.' := by
        rw [List.getElem?_append_right (Nat.le_refl _)]
        simp
      have h3 : (body ++ '.' :: tld).drop (body.length + 1) = tld := by
        rw [List.append_cons]
        refine List.drop_left' ?_
        rw [List.length_append]
        simp
      simp only [Bool.and_eq_true, decide_eq_true_eq, beq_iff_eq, List.all_eq_true,
        h1, h2, h3]
      refine ⟨⟨⟨⟨?_, hbody⟩, trivial⟩, hlen⟩, htld⟩
      exact List.length_pos.mpr hne

/-- `dropWhile` over a list all of whose members satisfy the predicate. -/
theorem dropWhile_all_eq_nil (p : Char → Bool) (l : List Char)
    (h : ∀ c ∈ l, p c = true) : l.dropWhile p = [] := by
  induction l with
  | nil => rfl
  | cons c cs ih =>
    rw [List.dropWhile_cons, if_pos (h c (List.mem_cons_self _ _))]
    exact ih fun x hx => h x (List.mem_cons_of_mem _ hx)

/-- `jsToLower` fixes whitespace characters. -/
theorem jsToLower_ws (c : Char) (h : jsWhitespace c = true) : jsToLower c = c := by
  unfold jsWhitespace at h
  have hc := of_decide_eq_true h
  rcases hc with rfl | rfl | rfl | rfl | rfl | rfl <;> decide

/-- Whitespace-only input canonicalizes to the empty string. -/
theorem canonicalize_ws (s : List Char) (h : ∀ c ∈ s, jsWhitespace c = true) :
    canonicalize s = [] := by
  unfold canonicalize jsTrim
  have hlow : ∀ c ∈ s.map jsToLower, jsWhitespace c = true := by
    intro c hc
    rcases List.mem_map.mp hc with ⟨a, ha, rfl⟩
    rw [jsToLower_ws a (h a ha)]
    exact h a ha
  rw [dropWhile_all_eq_nil _ _ hlow]
  rfl

/-- Unfolding lemma for the `String` wrapper. -/
theorem data_mk (l : List Char) : (String.mk l).data = l := rfl

/-- The validator's `local`/`domain` fields versus the candidate string. -/
theorem validateEmail_parts (e : List Char) :
    ('@' ∈ e →
      e = (validateEmail e).locPart ++ '@' :: (validateEmail e).domPart ∧
      (validateEmail e).locPart = beforeFirstAt e ∧
      (validateEmail e).domPart = afterFirstAt e) ∧
    ('@' ∉ e → (validateEmail e).locPart = [] ∧ (validateEmail e).domPart = []) := by
  constructor
  · intro hat
    rw [validateEmail, if_pos hat]
    exact ⟨(beforeAt_append_afterAt e hat).symm, rfl, rfl⟩
  · intro hat
    rw [validateEmail, if_neg hat]
    exact ⟨rfl, rfl⟩

/-- The validator only ever produces the confidences 0.4, 0.6, 0.8, 0.99. -/
theorem validateEmail_confidence_cases (e : List Char) :
    (validateEmail e).confidence = 0.4 ∨ (validateEmail e).confidence = 0.6 ∨
    (validateEmail e).confidence = 0.8 ∨ (validateEmail e).confidence = 0.99 := by
  rw [validateEmail]
  by_cases hat : '@' ∈ e
  · rw [if_pos hat]
    dsimp only
    split_ifs
    · right; right; right; rfl
    · right; right; left; rfl
    · right; left; rfl
  · rw [if_neg hat]
    left; rfl

/-! ### The claims -/

/-- C1: on the input "raul dot smith at gmail dot com" the normalizer
returns email "raul.smith@gmail.com", isValid true and confidence 0.99. -/
theorem claim_C1_example_raul :
    (formatEmailText "raul dot smith at gmail dot com").email = "raul.smith@gmail.com" ∧
    (formatEmailText "raul dot smith at gmail dot com").isValid = true ∧
    (formatEmailText "raul dot smith at gmail dot com").confidence = 0.99 := by
  exact ⟨by decide, by decide, rfl⟩

/-- C2: the email field never holds more than one `@`; in particular the
repeated separator input "juan arroba arroba gmail punto com" yields an
email with exactly one `@` (the second "arroba" is dropped by the
`seenAt` guard). -/
theorem claim_C2_at_most_one_at :
    (∀ s : String, ((formatEmailText s).email.data.count '@') ≤ 1) ∧
    ((formatEmailText "juan arroba arroba gmail punto com").email = "juan@gmail.com" ∧
      (formatEmailText "juan arroba arroba gmail punto com").email.data.count '@' = 1) := by
  constructor
  · intro s
    by_cases h : s = ""
    · subst h; decide
    · rw [formatEmailText, if_neg h]
      exact cleanup_atCount _
  · exact ⟨by decide, by decide⟩

/-- C3: on every non-empty input the normalizer terminates (it is a total
function of this development) with a confidence in the discrete set
0.0, 0.4, 0.6, 0.8, 0.99. -/
theorem claim_C3_confidence_discrete (s : String) (h : s ≠ "") :
    (formatEmailText s).confidence = 0.0 ∨ (formatEmailText s).confidence = 0.4 ∨
    (formatEmailText s).confidence = 0.6 ∨ (formatEmailText s).confidence = 0.8 ∨
    (formatEmailText s).confidence = 0.99 := by
  rw [formatEmailText, if_neg h]
  rcases validateEmail_confidence_cases
      (cleanup (rewriteTokens (tokenize (canonicalize s.data)) false)) with h1 | h1 | h1 | h1
  · right; left; exact h1
  · right; right; left; exact h1
  · right; right; right; left; exact h1
  · right; right; right; right; exact h1

theorem claim_C3_confidence_discrete_witness :
    (("a" : String) ≠ "") ∧
    ((formatEmailText "a").confidence = 0.0 ∨ (formatEmailText "a").confidence = 0.4 ∨
     (formatEmailText "a").confidence = 0.6 ∨ (formatEmailText "a").confidence = 0.8 ∨
     (formatEmailText "a").confidence = 0.99) :=
  ⟨by decide, claim_C3_confidence_discrete "a" (by decide)⟩

/-- C4: the empty string takes the guard branch, which returns the
error-shaped result (`email` "", `isValid` false, `confidence` 0.0,
`reason` "Empty input") directly, before any pipeline stage; absent and
non-string inputs take the same branch of the JS guard. -/
theorem claim_C4_empty_guard :
    formatEmailText "" = NormalizedResult.error "" false 0.0 "Empty input" := by
  rfl

/-- C5: a "guion" token immediately followed by "bajo" is consumed as a
bigram that emits `_`, whatever the rest of the token stream and the
at-flag (so the bigram wins over the single-token "guion" mapping); on the
input "guion bajo test arroba dominio punto com" the email is
"_test@dominio.com". -/
theorem claim_C5_bigram_guion_bajo :
    (∀ (ts : List (List Char)) (sA : Bool),
      rewriteTokens ("guion".data :: "bajo".data :: ts) sA = '_' :: rewriteTokens ts sA) ∧
    (formatEmailText "guion bajo test arroba dominio punto com").email = "_test@dominio.com" := by
  constructor
  · intro ts sA
    rfl
  · decide

/-- C6, counterexample: the claim "domainOk is true iff the text after the
first `@` consists of one or more groups of `[a-z0-9-]` separated by
single dots, ending in a final dot and a 2+ letter label, and holds no
`..`" fails on the candidate "a@.a.com": the code's `domainOk` accepts
its domain ".a.com" (the regex body `[a-z0-9.-]+` tolerates a leading
dot) although ".a.com" is not a dot-separated sequence of non-empty
groups. -/
theorem claim_C6_counterexample :
    ¬ (domainOk (afterFirstAt "a@.a.com".data) = true ↔
        (specDomainPattern (afterFirstAt "a@.a.com".data) ∧
         hasDoubleDot (afterFirstAt "a@.a.com".data) = false)) := by
  intro hiff
  have h1 : domainOk (afterFirstAt "a@.a.com".data) = true := by decide
  obtain ⟨gs, tld, hgs, hg, hlen, htld, hd⟩ := (hiff.mp h1).1
  match gs, hgs with
  | g :: gs2, _ =>
    obtain ⟨X, hX⟩ := dotJoined_cons g gs2
    have hgne := (hg g (List.mem_cons_self _ _)).1
    have hgc := (hg g (List.mem_cons_self _ _)).2
    cases g with
    | nil => exact hgne rfl
    | cons c g2 =>
      rw [hX] at hd
      have hd2 : '.' :: "a.com".data = c :: (g2 ++ X ++ '.' :: tld) := by
        rw [show afterFirstAt "a@.a.com".data = '.' :: "a.com".data from rfl] at hd
        simpa [List.append_assoc] using hd
      have hc : c = '.' := (List.cons.injEq _ _ _ _ |>.mp hd2).1.symm
      subst hc
      exact absurd (hgc '.' (List.mem_cons_self _ _)) (by decide)

/-- C6, amended: for every candidate with an `@`, `domainOk` is true iff
the text after the first `@` is a non-empty string over `[a-z0-9.-]`
(dots may sit anywhere in it, including at the front), followed by a
final dot and an all-letter label of at least two letters
(case-insensitive), and holds no `..` substring. -/
theorem claim_C6_amended (e : List Char) (h : '@' ∈ e) :
    domainOk (afterFirstAt e) = true ↔
      ((∃ body tld : List Char, afterFirstAt e = body ++ '.' :: tld ∧ body ≠ [] ∧
          (∀ c ∈ body, isDomainBodyChar c = true) ∧ 2 ≤ tld.length ∧
          (∀ c ∈ tld, isAsciiLetter c = true)) ∧
        hasDoubleDot (afterFirstAt e) = false) := by
  unfold domainOk
  rw [Bool.and_eq_true, Bool.not_eq_true', domainRegexTest_iff]

theorem claim_C6_amended_witness :
    ('@' ∈ "a@b.com".data) ∧
    (domainOk (afterFirstAt "a@b.com".data) = true ↔
      ((∃ body tld : List Char, afterFirstAt "a@b.com".data = body ++ '.' :: tld ∧
          body ≠ [] ∧ (∀ c ∈ body, isDomainBodyChar c = true) ∧ 2 ≤ tld.length ∧
          (∀ c ∈ tld, isAsciiLetter c = true)) ∧
        hasDoubleDot (afterFirstAt "a@b.com".data) = false)) :=
  ⟨by decide, claim_C6_amended "a@b.com".data (by decide)⟩

/-- C7: the domain field of every result is free of consecutive dots: the
domain-side collapse in the cleanup pass runs before validation, and the
validator's domain is exactly that collapsed segment (or empty). -/
theorem claim_C7_domain_no_double_dot (s : String) :
    hasDoubleDot (formatEmailText s).domPart.data = false := by
  by_cases h : s = ""
  · subst h; rfl
  · rw [formatEmailText, if_neg h]
    exact validateEmail_cleanup_domPart _

/-- C8: a non-empty all-whitespace input is NOT caught by the "Empty
input" guard (the guard tests the untrimmed string): the pipeline runs on
an empty token list and returns the full-shaped result with email "",
isValid false, confidence 0.4 and empty local/domain. -/
theorem claim_C8_whitespace_not_guarded (s : String) (h1 : s ≠ "")
    (h2 : ∀ c ∈ s.data, jsWhitespace c = true) :
    formatEmailText s = NormalizedResult.ok s "" false 0.4 "" "" := by
  rw [formatEmailText, if_neg h1, canonicalize_ws s.data h2]
  rfl

theorem claim_C8_whitespace_not_guarded_witness :
    ((" " : String) ≠ "") ∧ (∀ c ∈ (" " : String).data, jsWhitespace c = true) ∧
    formatEmailText " " = NormalizedResult.ok " " "" false 0.4 "" "" :=
  ⟨by decide, by decide, claim_C8_whitespace_not_guarded " " (by decide) (by decide)⟩

/-- C9, counterexample: the claimed alphabet invariant fails on the
non-empty input "constructor".  The JS lookup `MAP_SINGLE["constructor"]`
finds the inherited `Object` constructor on the prototype chain, which is
truthy and not `"@"`, so `out += sym` appends its stringification; the
email therefore contains spaces, an upper-case letter, parentheses and
braces, none of which the cleanup passes remove. -/
theorem claim_C9_counterexample :
    (("constructor" : String) ≠ "") ∧
    (formatEmailText "constructor").email = "function Object() \x7b [native code] \x7d" ∧
    ¬ (∀ c ∈ (formatEmailText "constructor").email.data,
        isEmailChar c = true ∨ c = '@') := by
  refine ⟨by decide, by decide, by decide⟩

/-- C9, amended: on every non-empty input none of whose tokens is
"constructor" or "__proto__" (the two all-lower-case `Object.prototype`
keys, whose inherited values leak into the output), each character of the
email field is a lower-case ASCII letter, a digit, or one of `.`, `_`,
`+`, `-`, `@` (`isEmailChar` is the class `[a-z0-9._+-]`); so no
upper-case letters, no whitespace and no diacritical marks survive. -/
theorem claim_C9_amended (s : String) (h : s ≠ "")
    (ht : ∀ t ∈ tokenize (canonicalize s.data),
        t ≠ "constructor".data ∧ t ≠ "__proto__".data) :
    ∀ c ∈ (formatEmailText s).email.data, isEmailChar c = true ∨ c = '@' := by
  rw [formatEmailText, if_neg h]
  intro c hc
  have h2 := cleanup_chars (rewriteTokens (tokenize (canonicalize s.data)) false)
    (rewriteTokens_chars _ _ ht) c hc
  unfold isOutChar at h2
  rcases Bool.or_eq_true_iff.mp h2 with h3 | h3
  · exact Or.inl h3
  · exact Or.inr (beq_iff_eq.mp h3)

theorem claim_C9_amended_witness :
    (("José pérez arroba Gmail punto com" : String) ≠ "") ∧
    (∀ t ∈ tokenize (canonicalize ("José pérez arroba Gmail punto com" : String).data),
        t ≠ "constructor".data ∧ t ≠ "__proto__".data) ∧
    (∀ c ∈ (formatEmailText "José pérez arroba Gmail punto com").email.data,
      isEmailChar c = true ∨ c = '@') :=
  ⟨by decide, by decide,
    claim_C9_amended "José pérez arroba Gmail punto com" (by decide) (by decide)⟩

/-- C10: the local/domain fields agree with the email field: with an `@`
present, email = local ++ "@" ++ domain where local is the prefix of the
email before its first `@` (`beforeFirstAt`) and domain is the suffix
after it (`afterFirstAt`); with no `@`, both fields are empty. -/
theorem claim_C10_parts_consistent (s : String) (h : s ≠ "") :
    ('@' ∈ (formatEmailText s).email.data →
      (formatEmailText s).email.data =
        (formatEmailText s).locPart.data ++ '@' :: (formatEmailText s).domPart.data ∧
      (formatEmailText s).locPart.data = beforeFirstAt (formatEmailText s).email.data ∧
      (formatEmailText s).domPart.data = afterFirstAt (formatEmailText s).email.data) ∧
    ('@' ∉ (formatEmailText s).email.data →
      (formatEmailText s).locPart = "" ∧ (formatEmailText s).domPart = "") := by
  rw [formatEmailText, if_neg h]
  simp only [NormalizedResult.email, NormalizedResult.locPart, NormalizedResult.domPart, data_mk]
  constructor
  · intro hat
    exact (validateEmail_parts (cleanup (rewriteTokens (tokenize (canonicalize s.data)) false))).1 hat
  · intro hat
    obtain ⟨h1, h2⟩ :=
      (validateEmail_parts (cleanup (rewriteTokens (tokenize (canonicalize s.data)) false))).2 hat
    exact ⟨String.ext h1, String.ext h2⟩

theorem claim_C10_parts_consistent_witness :
    (("a arroba b punto com" : String) ≠ "") ∧
    (('@' ∈ (formatEmailText "a arroba b punto com").email.data →
      (formatEmailText "a arroba b punto com").email.data =
        (formatEmailText "a arroba b punto com").locPart.data ++
          '@' :: (formatEmailText "a arroba b punto com").domPart.data ∧
      (formatEmailText "a arroba b punto com").locPart.data =
        beforeFirstAt (formatEmailText "a arroba b punto com").email.data ∧
      (formatEmailText "a arroba b punto com").domPart.data =
        afterFirstAt (formatEmailText "a arroba b punto com").email.data) ∧
    ('@' ∉ (formatEmailText "a arroba b punto com").email.data →
      (formatEmailText "a arroba b punto com").locPart = "" ∧
      (formatEmailText "a arroba b punto com").domPart = "")) :=
  ⟨by decide, claim_C10_parts_consistent "a arroba b punto com" (by decide)⟩

end EmailParser
